import Mathlib

/-!
Verification of `gen-complex.js` from the total-serialism package.

We give a shallow embedding of the generators in that file — the
n-bonacci recurrence engine (`numBonacci`), the Pisano period detector
(`pisano` / `pisanoPeriod`), the two Euclidean rhythm generators
(`euclid` / `fastEuclid`) and the elementary cellular `Automaton` —
and prove the specification's claims about them.

JavaScript numbers are modelled as `Int` (all claim-relevant code paths
stay on exact integers; the BigNumber values used by the source are exact
arbitrary-precision integers under the operations used, so `Int` is a
faithful model).  The JS values `NaN` and `undefined` are modelled by the
sentinel `-1` where they can flow into a numeric slot; no verified
property depends on arithmetic over those sentinels.
-/

namespace TotalSerialism

/-- JS `Math.floor(a / b)`: floor division on integers. -/
def jsFloorDiv (a b : Int) : Int := Int.fdiv a b

/-- JS `a % b`: the remainder has the sign of the dividend (truncated
division), which is `Int.tmod`. -/
def jsMod (a b : Int) : Int := Int.tmod a b

/-- The character for a decimal digit below 10 (`'?'` otherwise). -/
def digitChar (d : Nat) : Char :=
  if d = 0 then '0' else if d = 1 then '1' else if d = 2 then '2'
  else if d = 3 then '3' else if d = 4 then '4' else if d = 5 then '5'
  else if d = 6 then '6' else if d = 7 then '7' else if d = 8 then '8'
  else if d = 9 then '9' else '?'

/-- Fuelled digit expansion of a natural number in base `b`
(most significant digit first), accumulator style. -/
def natDigitsF : Nat → Nat → Nat → List Char → List Char
  | 0, _, _, acc => acc
  | f + 1, b, n, acc =>
    let d := digitChar (n % b)
    if n < b then d :: acc else natDigitsF f b (n / b) (d :: acc)

/-- Digits of `n` in base `b`, most significant first (`n = 0` gives `"0"`).
Models JS `Number.prototype.toString(base)` for nonnegative integers. -/
def natToDigits (b n : Nat) : List Char := natDigitsF (n + 1) b n []

/-- JS `n.toString(base)` for an integer: a minus sign followed by the
digits of the absolute value when `n` is negative. -/
def jsIntToString (b : Nat) (n : Int) : List Char :=
  if n < 0 then '-' :: natToDigits b n.natAbs else natToDigits b n.toNat

/-- JS `String.prototype.padStart(len, c)`. -/
def padStart (s : List Char) (len : Nat) (c : Char) : List Char :=
  List.replicate (len - s.length) c ++ s

/-- JS `Array.prototype.indexOf(x)`: first index of `x`, `-1` if absent. -/
def jsIndexOf (a : List Int) (x : Int) : Int :=
  if x ∈ a then (a.indexOf x : Int) else -1

/-- Modelled from the spec: `Transform.rotate` (the `transform.js` source is
not part of this repository).  Cyclic rotation of an array: element `j` of
`rotate a n` is element `(j - n) mod length` of `a`, so that a negative `n`
rotates to the left — per the spec, `euclid` rotates by
`rotate - indexOfFirstOne` so that the first one lands at index `rotate`. -/
def rotate (a : List Int) (n : Int) : List Int :=
  if a.length = 0 then a
  else
    let m := ((-n).emod (a.length : Int)).toNat
    a.drop m ++ a.take m

/-! ## The n-bonacci recurrence engine (`numBonacci`) -/

/-- The generation loop of `numBonacci`: starting from the pair
`(n1, n2) = (F(j-1), F(j-2))`, produce `k` further terms of
`F(n) = F(n-1) * t + F(n-2)` (source: `cur = n1.times(t).plus(n2)`). -/
def nbonLoop (t : Int) : Nat → Int → Int → List Int
  | 0, _, _ => []
  | k + 1, n1, n2 =>
    let cur := n1 * t + n2
    cur :: nbonLoop t k cur n1

/-- `numBonacci(len, s1, s2, t)` from `gen-complex.js`:
`len = Math.max(1, len-2)`; the seed array is `[n2, n1] = [s1, s2]`;
if `len < 2` return `arr.slice(0, len)`, else push `len` further
recurrence terms. -/
def numBonacci (len s1 s2 t : Int) : List Int :=
  let l := max 1 (len - 2)
  if l < 2 then ([s1, s2].take l.toNat)
  else [s1, s2] ++ nbonLoop t l.toNat s2 s1

/-- `fibonacci(len, offset, true)` from `gen-complex.js`, string output:
`numBonacci(len+offset, 0, 1, 1)` mapped through BigNumber `toFixed`
(exact decimal string), sliced when `offset > 0`. -/
def fibonacciStrings (len offset : Int) : List String :=
  let f := (numBonacci (len + offset) 0 1 1).map
    (fun x => String.mk (jsIntToString 10 x))
  if 0 < offset then (f.drop offset.toNat).take len.toNat else f

/-! ## The Pisano period detector -/

/-- One step of the scan loop inside `pisanoPeriod`: walk the remaining
sequence `rest`, maintaining the 3-term window `p` and the counter `l`;
when the window equals `[0, 1, 1]` and `l > 3`, return `seq.slice(0, l)`.
JS compares `p[k] === c[k]` for every `k < p.length` (out-of-range reads
of `c` yield `undefined` and never compare equal to a number, which the
distinct defaults below reproduce). -/
def ppScan (seq : List Int) : List Int → List Int → Nat → Option (List Int)
  | [], _, _ => none
  | x :: rest, p, l =>
    let p' := p ++ [x]
    if 2 < p'.length then
      let equals := (List.range p'.length).countP
        (fun k => p'.getD k (-99) = ([0, 1, 1] : List Int).getD k (-98))
      if equals = 3 ∧ 3 < l then some (seq.take l)
      else ppScan seq rest ((p'.drop 1).take 2) (l + 1)
    else ppScan seq rest p' l

/-- `pisanoPeriod(mod, length)` with an explicit bound on the number of
doubling retries.  The source retries with `length*2` without bound; the
fuel only caps those retries (every claim below is settled inside the very
first batch, where the fuel is irrelevant). -/
def pisanoPeriodF : Nat → Int → Int → List Int
  | 0, _, _ => []
  | fuel + 1, m, length =>
    let seq := (numBonacci length 0 1 1).map (fun x => jsMod x m)
    match ppScan seq seq [] 0 with
    | some r => r
    | none => pisanoPeriodF fuel m (length * 2)

/-- `pisanoPeriod(mod)` (default `length = 32`). -/
def pisanoPeriod (m : Int) : List Int := pisanoPeriodF 30 m 32

/-- `pisano(mod, len)` from `gen-complex.js`. -/
def pisano (m : Int) (len : Int) : List Int :=
  if m < 2 then [0]
  else if len < 1 then pisanoPeriod m
  else (numBonacci len 0 1 1).map (fun x => jsMod x m)

/-! ## The Euclidean rhythm generators -/

/-- `fastEuclid(s, h, r)` from `gen-complex.js`:
`v = Math.floor(i * (h / s))`, emit `1` when `v` changes.  (The source
computes `i * (h / s)` in floating point; at the magnitudes of every
claim below the float result is exact, so integer floor division is a
faithful model.)  A truthy (nonzero) `r` applies `Transform.rotate`. -/
def fastEuclid (s h r : Int) : List Int :=
  let arr := (List.range s.toNat).map (fun i =>
    let v := jsFloorDiv ((i : Int) * h) s
    let d := jsFloorDiv (((i : Int) - 1) * h) s
    if i = 0 then (if v = -1 then 0 else 1) else (if v = d then 0 else 1))
  if r ≠ 0 then rotate arr r else arr

/-- The remainder/count ladder of `euclid`, fuelled (the fuel is spent on
`r`, whose absolute value strictly decreases; `euclidLadder` below always
supplies enough).  Returns the full `counts` array — the loop-pushed
counts followed by the final `counts.push(divisor)` — and the remainders
pushed by the loop (the JS `remainders` array is `beats ::` that list). -/
def euclidLadderF : Nat → Int → Int → List Int × List Int
  | 0, d, _ => ([d], [])
  | fuel + 1, d, r =>
    if 1 < r then
      let c := jsFloorDiv d r
      let r' := jsMod d r
      let (cs, rs) := euclidLadderF fuel r r'
      (c :: cs, r' :: rs)
    else ([d], [])

/-- The `counts`/`remainders` ladder built by the while loop of `euclid`. -/
def euclidLadder (d r : Int) : List Int × List Int :=
  euclidLadderF (r.natAbs + 1) d r

/-- `build(l)` from `gen-complex.js`, with the level shifted by 2 so the
recursion is structural: level `-2` (here `0`) emits `[1]`, level `-1`
(here `1`) emits `[0]`, and level `n` (here `n + 2`) emits
`counts[n]` copies of the expansion of level `n - 1` followed by the
expansion of level `n - 2` when `remainders[n] != 0`. -/
def build (counts rems : List Int) : Nat → List Int
  | 0 => [1]
  | 1 => [0]
  | n + 2 =>
    (List.replicate (counts.getD n 0).toNat (build counts rems (n + 1))).flatten
      ++ (if rems.getD n 0 ≠ 0 then build counts rems n else [])

/-- `euclid(steps, beats, rot)` from `gen-complex.js`: build the ladder
from `divisor = steps - beats` and `remainders = [beats]`, expand the
pattern from the final level, and rotate by `rot - pattern.indexOf(1)`. -/
def euclid (steps beats rot : Int) : List Int :=
  let divisor := steps - beats
  let (counts, rtail) := euclidLadder divisor beats
  let rems := beats :: rtail
  let level := rtail.length
  let pattern := build counts rems (level + 2)
  rotate pattern (rot - jsIndexOf pattern 1)

/-! ## The elementary cellular automaton -/

/-- The JS values a caller can pass to `rule()` / `feed()`: a number, an
array of numbers, a plain object (modelled as an association list), a
string, or a non-coercible value such as `undefined`. -/
inductive JsArg : Type
  | num (n : Int)
  | arr (a : List Int)
  | obj (o : List (String × Int))
  | str (s : String)
  | undef
deriving DecidableEq, Repr

/-- Diagnostics emitted through `console.log` / `console.error`. -/
inductive Diag : Type
  | warn
  | error
deriving DecidableEq, Repr

/-- What the `_rule` field holds: the split binary string set by the
constructor, the raw argument stored by the number branch of `rule()`,
or `undefined` (set by the object branch). -/
inductive RuleRepr : Type
  | chars (l : List Char)
  | arg (a : JsArg)
  | undef
deriving DecidableEq, Repr

/-- JS `Number(a)` coercion for the values reachable in the `else` branch
of `rule()` (`none` models `NaN`).  Strings coerce when they spell a
decimal integer (the empty string coerces to `0`). -/
def jsNumberCoerce : JsArg → Option Int
  | .num n => some n
  | .str s =>
    if s.data = [] then some 0
    else if s.data.all (fun c => '0' ≤ c ∧ c ≤ '9') then
      some ((s.data.foldl (fun n c => n * 10 + (c.toNat - '0'.toNat)) 0 : Nat) : Int)
    else none
  | _ => none

/-- JS `Number(c)` on a single character (digit or `NaN`, the latter
modelled by `-1`). -/
def charToNum (c : Char) : Int :=
  if '0' ≤ c ∧ c ≤ '9' then ((c.toNat - '0'.toNat : Nat) : Int) else -1

/-- `Array.prototype.join('')` on an array of numbers: concatenate the
decimal string of every element. -/
def jsJoinInts (l : List Int) : List Char :=
  (l.map (jsIntToString 10)).flatten

/-- The `Automaton` state: population length, current generation, rule
representation and the rule lookup table (a JS object, modelled as an
association list from neighborhood strings to numbers). -/
structure Automaton : Type where
  len : Int
  state : List Int
  ruleRepr : RuleRepr
  table : List (String × Int)
deriving DecidableEq, Repr

/-- `ruleToBinary(r)`: `r.toString(2).padStart(8, '0')`. -/
def ruleToBinary (r : Int) : List Char :=
  padStart (jsIntToString 2 r) 8 '0'

/-- `binaryToTable(r)`: keys `(7-i).toString(2).padStart(3, '0')` for
`i = 0..7`, values `Number(r[i])` (reading past the end of `r` yields
`undefined`, whose coercion is `NaN`, modelled by `-1`). -/
def binaryToTable (r : List Char) : List (String × Int) :=
  (List.range 8).map (fun i =>
    (String.mk (padStart (natToDigits 2 (7 - i)) 3 '0'),
     match r.get? i with
     | some c => charToNum c
     | none => -1))

/-- The `Automaton` constructor: `length = Math.max(3, l)`, state filled
with zeros, rule split to characters, table built from it. -/
def mkAutomaton (l r : Int) : Automaton :=
  let len := max 3 l
  { len := len
    state := List.replicate len.toNat 0
    ruleRepr := .chars (ruleToBinary r)
    table := binaryToTable (ruleToBinary r) }

/-- `rule(a)`: array arguments go through join/pad/`binaryToTable`
(warning when the length is not 8), object arguments are copied into the
table directly (warning when the key count is not 8), anything else is
numerically coerced (error, and no state change, when that gives `NaN`). -/
def Automaton.rule (A : Automaton) (a : JsArg) : Automaton × List Diag :=
  match a with
  | .arr l =>
    let warns := if l.length ≠ 8 then [Diag.warn] else []
    let r := padStart (jsJoinInts (l.take 8)) 8 '0'
    ({ A with table := binaryToTable r }, warns)
  | .obj o =>
    let warns := if o.length ≠ 8 then [Diag.warn] else []
    ({ A with ruleRepr := .undef, table := o }, warns)
  | other =>
    match jsNumberCoerce other with
    | none => (A, [Diag.error])
    | some n =>
      ({ A with ruleRepr := .arg other, table := binaryToTable (ruleToBinary n) },
       [])

/-- `feed(a)`: replace state and length when `a` is an array of length at
least 3; otherwise warn and change nothing. -/
def Automaton.feed (A : Automaton) (a : JsArg) : Automaton × List Diag :=
  match a with
  | .arr l =>
    if l.length < 3 then (A, [Diag.warn])
    else ({ A with state := l, len := (l.length : Int) }, [])
  | _ => (A, [Diag.warn])

/-- Read `state[i]` for a JS index (`undefined`, modelled `-1`, when out
of range). -/
def jsStateGet (st : List Int) (i : Int) : Int :=
  if 0 ≤ i then st.getD i.toNat (-1) else -1

/-- The body of the `next()` loop for cell `i`: look up
`table[[left, self, right].join('')]` where the neighbor indices are
`((i - 1 % l) + l) % l` and `((i + 1 % l) + l) % l` (note the JS
precedence: `%` binds tighter than `-`/`+`, so these are `i ∓ (1 % l)`
wrapped into range).  A missing table key gives `undefined`
(modelled `-1`). -/
def nextCell (A : Automaton) (i : Nat) : Int :=
  let l := A.len
  let left := jsStateGet A.state (jsMod (((i : Int) - jsMod 1 l) + l) l)
  let right := jsStateGet A.state (jsMod (((i : Int) + jsMod 1 l) + l) l)
  let self := jsStateGet A.state (i : Int)
  let key := String.mk (jsJoinInts [left, self, right])
  match A.table.lookup key with
  | some v => v
  | none => -1

/-- The new generation computed by `next()`: one `nextCell` per index,
all read from the old state. -/
def nextState (A : Automaton) : List Int :=
  (List.range A.len.toNat).map (nextCell A)

/-- `next()`: compute the whole next generation from the old one, store
it, and return it. -/
def Automaton.next (A : Automaton) : Automaton × List Int :=
  ({ A with state := nextState A }, nextState A)

/-- A call against the automaton: the three mutating methods. -/
inductive AOp : Type
  | opRule (a : JsArg)
  | opFeed (a : JsArg)
  | opNext
deriving DecidableEq, Repr

/-- Apply one method call, discarding diagnostics and return values. -/
def applyOp (A : Automaton) : AOp → Automaton
  | .opRule a => (A.rule a).1
  | .opFeed a => (A.feed a).1
  | .opNext => (A.next).1

/-- Run a sequence of method calls on a freshly constructed automaton. -/
def runOps (l r : Int) (ops : List AOp) : Automaton :=
  ops.foldl applyOp (mkAutomaton l r)

/-! ## Proof-support definitions -/

/-- `build` with the two terminal patterns as parameters (`p` is what level
`-1` emits, `q` what level `-2` emits); `build = buildG _ _ [0] [1]`. -/
def buildG (counts rems : List Int) (p q : List Int) : Nat → List Int
  | 0 => q
  | 1 => p
  | n + 2 =>
    (List.replicate (counts.getD n 0).toNat (buildG counts rems p q (n + 1))).flatten
      ++ (if rems.getD n 0 ≠ 0 then buildG counts rems p q n else [])

/-- The Bjorklund expansion fused with the ladder recursion: carrying the
patterns of the two previous levels while descending the ladder from
`(d, r)`.  `bjorkGF fuel d r p q` equals the `build` expansion of the
ladder of `(d, r)` started from terminal patterns `p`, `q`. -/
def bjorkGF : Nat → Int → Int → List Int → List Int → List Int
  | 0, d, r, p, q =>
    (List.replicate d.toNat p).flatten ++ (if r ≠ 0 then q else [])
  | fuel + 1, d, r, p, q =>
    if 1 < r then
      bjorkGF fuel r (jsMod d r)
        ((List.replicate (jsFloorDiv d r).toNat p).flatten ++ q) p
    else (List.replicate d.toNat p).flatten ++ (if r ≠ 0 then q else [])

/-- The state invariant of the automaton: the stored length field is at
least 3 and agrees with the length of the stored state array. -/
def automatonInv (A : Automaton) : Prop :=
  (A.state.length : Int) = A.len ∧ 3 ≤ A.len

/-! ## Helper lemmas -/

theorem natAbs_tmod_eq (d r : Int) : (Int.tmod d r).natAbs = d.natAbs % r.natAbs := by
  cases d with
  | ofNat m =>
    cases r with
    | ofNat n => rfl
    | negSucc n => rfl
  | negSucc m =>
    cases r with
    | ofNat n =>
      rw [show Int.tmod (Int.negSucc m) (Int.ofNat n) =
        -Int.ofNat ((m + 1) % n) from rfl, Int.natAbs_neg]
      rfl
    | negSucc n =>
      rw [show Int.tmod (Int.negSucc m) (Int.negSucc n) =
        -Int.ofNat ((m + 1) % (n + 1)) from rfl, Int.natAbs_neg]
      rfl

theorem natAbs_tmod_lt (d r : Int) (h : 1 < r) :
    (Int.tmod d r).natAbs < r.natAbs := by
  rw [natAbs_tmod_eq]
  exact Nat.mod_lt _ (by omega)

theorem count_flatten_replicate (x : Int) (k : Nat) (l : List Int) :
    ((List.replicate k l).flatten).count x = k * l.count x := by
  induction k with
  | zero => simp
  | succ k ih => simp [List.replicate_succ, ih, Nat.succ_mul, Nat.add_comm]

theorem length_flatten_replicate (k : Nat) (l : List Int) :
    ((List.replicate k l).flatten).length = k * l.length := by
  induction k with
  | zero => simp
  | succ k ih => simp [List.replicate_succ, ih, Nat.succ_mul, Nat.add_comm]

theorem rotate_count (a : List Int) (n x : Int) :
    (rotate a n).count x = a.count x := by
  unfold rotate
  split
  · rfl
  · rw [List.count_append, Nat.add_comm, ← List.count_append, List.take_append_drop]

theorem rotate_length (a : List Int) (n : Int) :
    (rotate a n).length = a.length := by
  unfold rotate
  split
  · rfl
  · rw [List.length_append, Nat.add_comm, ← List.length_append, List.take_append_drop]

theorem rotate_perm (a : List Int) (n : Int) : (rotate a n).Perm a := by
  unfold rotate
  split
  · exact List.Perm.refl a
  · exact (List.perm_append_comm).trans (by rw [List.take_append_drop])

/-! ## Lemmas about the recurrence engine -/

theorem nbonLoop_length (t : Int) : ∀ (k : Nat) (n1 n2 : Int),
    (nbonLoop t k n1 n2).length = k := by
  intro k
  induction k with
  | zero => intro n1 n2; rfl
  | succ k ih => intro n1 n2; simp [nbonLoop, ih]

theorem nbonLoop_recurrence (t : Int) : ∀ (k : Nat) (n1 n2 : Int) (i : Nat),
    i + 2 < (n2 :: n1 :: nbonLoop t k n1 n2).length →
    (n2 :: n1 :: nbonLoop t k n1 n2).getD (i + 2) 0 =
      t * (n2 :: n1 :: nbonLoop t k n1 n2).getD (i + 1) 0 +
        (n2 :: n1 :: nbonLoop t k n1 n2).getD i 0 := by
  intro k
  induction k with
  | zero => intro n1 n2 i h; simp [nbonLoop] at h
  | succ k ih =>
    intro n1 n2 i h
    match i with
    | 0 =>
      show n1 * t + n2 = t * n1 + n2
      ring
    | i + 1 =>
      have := ih (n1 * t + n2) n1 i (by
        simp only [nbonLoop, List.length_cons] at h ⊢
        omega)
      simpa [nbonLoop] using this

theorem nbonLoop_fib : ∀ (k m : Nat),
    nbonLoop 1 k (Nat.fib (m + 1) : Int) (Nat.fib m : Int) =
      (List.range k).map (fun j => (Nat.fib (m + 2 + j) : Int)) := by
  intro k
  induction k with
  | zero => intro m; rfl
  | succ k ih =>
    intro m
    have hcur : ((Nat.fib (m + 1) : Int)) * 1 + (Nat.fib m : Int) =
        (Nat.fib (m + 2) : Int) := by
      rw [Nat.fib_add_two]
      push_cast
      ring
    simp only [nbonLoop, hcur]
    rw [show (Nat.fib (m + 2) : Int) = (Nat.fib ((m + 1) + 1) : Int) by norm_num,
      ih (m + 1)]
    rw [show (k + 1) = 1 + k from by omega, List.range_add, List.map_append,
      List.map_map]
    have htail : List.map (fun j => (Nat.fib (m + 1 + 2 + j) : Int)) (List.range k)
        = List.map ((fun j => (Nat.fib (m + 2 + j) : Int)) ∘ (1 + ·)) (List.range k) :=
      List.map_congr_left (fun j _ => by
        show (Nat.fib (m + 1 + 2 + j) : Int) = (Nat.fib (m + 2 + (1 + j)) : Int)
        exact_mod_cast congrArg Nat.fib (by omega))
    rw [htail]
    rw [show (Nat.fib ((m + 1) + 1) : Int) = (Nat.fib (m + 2 + 0) : Int) by norm_num]
    rfl

theorem numBonacci_length_of_ge (len s1 s2 t : Int) (h : 4 ≤ len) :
    (numBonacci len s1 s2 t).length = len.toNat := by
  have h1 : ¬ (max 1 (len - 2) < 2) := by omega
  simp only [numBonacci, h1, if_false, List.length_append, List.length_cons,
    List.length_nil, nbonLoop_length]
  omega

theorem numBonacci_length_of_lt (len s1 s2 t : Int) (h : ¬ 4 ≤ len) :
    numBonacci len s1 s2 t = [s1] := by
  have h1 : max 1 (len - 2) < 2 := by omega
  have h2 : (max 1 (len - 2)).toNat = 1 := by omega
  simp [numBonacci, h1, h2]

theorem range_map_two_shift (f : Nat → Int) (n : Nat) (h2 : 2 ≤ n) :
    (List.range n).map f =
      f 0 :: f 1 :: (List.range (n - 2)).map (fun j => f (2 + j)) := by
  obtain ⟨k, rfl⟩ : ∃ k, n = 2 + k := ⟨n - 2, by omega⟩
  rw [List.range_add, List.map_append, List.map_map]
  simp only [Nat.add_sub_cancel_left]
  rfl

theorem numBonacci_fib (len : Int) (h : 4 ≤ len) :
    numBonacci len 0 1 1 =
      (List.range len.toNat).map (fun i => (Nat.fib i : Int)) := by
  have h1 : ¬ (max 1 (len - 2) < 2) := by omega
  have h2 : (max 1 (len - 2)).toNat = len.toNat - 2 := by omega
  have hfib := nbonLoop_fib (len.toNat - 2) 0
  rw [show (Nat.fib (0 + 1) : Int) = 1 by norm_num,
    show (Nat.fib 0 : Int) = 0 by norm_num] at hfib
  simp only [numBonacci, h1, if_false, h2, hfib]
  have hr := range_map_two_shift (fun i => (Nat.fib i : Int)) len.toNat (by omega)
  rw [hr]
  simp only [List.cons_append, List.nil_append]
  have htail : List.map (fun j => (Nat.fib (0 + 2 + j) : Int)) (List.range (len.toNat - 2))
      = List.map (fun j => (Nat.fib (2 + j) : Int)) (List.range (len.toNat - 2)) :=
    List.map_congr_left (fun j _ => by
      show (Nat.fib (0 + 2 + j) : Int) = (Nat.fib (2 + j) : Int)
      exact_mod_cast congrArg Nat.fib (by omega))
  rw [htail]
  simp [Nat.fib_zero, Nat.fib_one]

/-! ## Lemmas about the Euclidean rhythm generator -/

theorem euclidLadderF_succ_pos (f : Nat) (d r : Int) (hr : 1 < r) :
    euclidLadderF (f + 1) d r =
      (jsFloorDiv d r :: (euclidLadderF f r (jsMod d r)).1,
       jsMod d r :: (euclidLadderF f r (jsMod d r)).2) := by
  rcases hE : euclidLadderF f r (jsMod d r) with ⟨cs, rs⟩
  simp [euclidLadderF, hr, hE]

theorem euclidLadderF_succ_base (f : Nat) (d r : Int) (hr : ¬ 1 < r) :
    euclidLadderF (f + 1) d r = ([d], []) := by
  simp [euclidLadderF, hr]

theorem build_eq_buildG (counts rems : List Int) : ∀ n,
    build counts rems n = buildG counts rems [0] [1] n := by
  intro n
  induction n using Nat.strong_induction_on with
  | _ n ih =>
    match n with
    | 0 => rfl
    | 1 => rfl
    | m + 2 =>
      simp only [build, buildG, ih (m + 1) (by omega), ih m (by omega)]

theorem buildG_shift (a b : Int) (C R p q : List Int) : ∀ n,
    buildG (a :: C) (b :: R) p q (n + 1) =
      buildG C R ((List.replicate a.toNat p).flatten ++ if b ≠ 0 then q else [])
        p n := by
  intro n
  induction n using Nat.strong_induction_on with
  | _ n ih =>
    match n with
    | 0 => rfl
    | 1 => simp [buildG]
    | m + 2 =>
      rw [show buildG (a :: C) (b :: R) p q (m + 2 + 1) =
          (List.replicate ((a :: C).getD (m + 1) 0).toNat
              (buildG (a :: C) (b :: R) p q (m + 2))).flatten
            ++ (if (b :: R).getD (m + 1) 0 ≠ 0 then
                buildG (a :: C) (b :: R) p q (m + 1) else [])
        from rfl]
      rw [show buildG C R
            ((List.replicate a.toNat p).flatten ++ if b ≠ 0 then q else [])
            p (m + 2) =
          (List.replicate (C.getD m 0).toNat
              (buildG C R
                ((List.replicate a.toNat p).flatten ++ if b ≠ 0 then q else [])
                p (m + 1))).flatten
            ++ (if R.getD m 0 ≠ 0 then
                buildG C R
                  ((List.replicate a.toNat p).flatten ++ if b ≠ 0 then q else [])
                  p m else [])
        from rfl]
      rw [List.getD_cons_succ, List.getD_cons_succ,
        ih (m + 1) (by omega), ih m (by omega)]

theorem buildG_ladderF : ∀ (f : Nat) (d r : Int) (p q : List Int),
    r.natAbs < f →
    buildG (euclidLadderF f d r).1 (r :: (euclidLadderF f d r).2) p q
        ((euclidLadderF f d r).2.length + 2) = bjorkGF f d r p q := by
  intro f
  induction f with
  | zero => intro d r p q h; exact absurd h (by omega)
  | succ f ih =>
    intro d r p q h
    by_cases hr : 1 < r
    · have hr0 : r ≠ 0 := by omega
      have hlt : (jsMod d r).natAbs < r.natAbs := natAbs_tmod_lt d r hr
      rw [euclidLadderF_succ_pos f d r hr]
      simp only [List.length_cons]
      rw [show (euclidLadderF f r (jsMod d r)).2.length + 1 + 2 =
        ((euclidLadderF f r (jsMod d r)).2.length + 2) + 1 from rfl]
      rw [buildG_shift, if_pos hr0,
        ih r (jsMod d r) _ p (by omega)]
      simp only [bjorkGF, if_pos hr]
    · rw [euclidLadderF_succ_base f d r hr]
      simp only [bjorkGF]
      rw [if_neg hr]
      simp [buildG]

theorem bjorkGF_count (f : Nat) (d r : Int) (p q : List Int) (x : Int)
    (h : r.natAbs < f) (hd : 0 ≤ d) (hr : 0 ≤ r) :
    (bjorkGF f d r p q).count x = d.toNat * p.count x + r.toNat * q.count x := by
  induction f generalizing d r p q with
  | zero => exact absurd h (by omega)
  | succ f ih =>
    by_cases h1 : 1 < r
    · have hr' : 0 ≤ jsMod d r := Int.tmod_nonneg r hd
      have hlt : (jsMod d r).natAbs < r.natAbs := natAbs_tmod_lt d r h1
      have hc : 0 ≤ jsFloorDiv d r := by
        unfold jsFloorDiv
        rw [Int.fdiv_eq_ediv _ (by omega)]
        exact Int.ediv_nonneg hd (by omega)
      have hid : r * jsFloorDiv d r + jsMod d r = d := by
        unfold jsFloorDiv jsMod
        rw [Int.fdiv_eq_ediv _ (by omega), Int.tmod_eq_emod hd (by omega)]
        exact Int.ediv_add_emod d r
      have hnat : r.toNat * (jsFloorDiv d r).toNat + (jsMod d r).toNat
          = d.toNat := by
        have h2 : ((r.toNat * (jsFloorDiv d r).toNat + (jsMod d r).toNat : Nat)
            : Int) = ((d.toNat : Nat) : Int) := by
          push_cast [Int.toNat_of_nonneg hr, Int.toNat_of_nonneg hc,
            Int.toNat_of_nonneg hr', Int.toNat_of_nonneg hd]
          linarith [hid]
        exact_mod_cast h2
      simp only [bjorkGF, if_pos h1]
      rw [ih r (jsMod d r) _ p (by omega) (by omega) hr',
        List.count_append, count_flatten_replicate]
      calc r.toNat * ((jsFloorDiv d r).toNat * p.count x + q.count x)
            + (jsMod d r).toNat * p.count x
          = (r.toNat * (jsFloorDiv d r).toNat + (jsMod d r).toNat) * p.count x
            + r.toNat * q.count x := by ring
        _ = d.toNat * p.count x + r.toNat * q.count x := by rw [hnat]
    · simp only [bjorkGF, if_neg h1]
      have : r = 0 ∨ r = 1 := by omega
      rcases this with rfl | rfl
      · simp [count_flatten_replicate]
      · simp [count_flatten_replicate, List.count_append]

theorem bjorkGF_length (f : Nat) (d r : Int) (p q : List Int)
    (h : r.natAbs < f) (hd : 0 ≤ d) (hr : 0 ≤ r) :
    (bjorkGF f d r p q).length = d.toNat * p.length + r.toNat * q.length := by
  induction f generalizing d r p q with
  | zero => exact absurd h (by omega)
  | succ f ih =>
    by_cases h1 : 1 < r
    · have hr' : 0 ≤ jsMod d r := Int.tmod_nonneg r hd
      have hlt : (jsMod d r).natAbs < r.natAbs := natAbs_tmod_lt d r h1
      have hc : 0 ≤ jsFloorDiv d r := by
        unfold jsFloorDiv
        rw [Int.fdiv_eq_ediv _ (by omega)]
        exact Int.ediv_nonneg hd (by omega)
      have hid : r * jsFloorDiv d r + jsMod d r = d := by
        unfold jsFloorDiv jsMod
        rw [Int.fdiv_eq_ediv _ (by omega), Int.tmod_eq_emod hd (by omega)]
        exact Int.ediv_add_emod d r
      have hnat : r.toNat * (jsFloorDiv d r).toNat + (jsMod d r).toNat
          = d.toNat := by
        have h2 : ((r.toNat * (jsFloorDiv d r).toNat + (jsMod d r).toNat : Nat)
            : Int) = ((d.toNat : Nat) : Int) := by
          push_cast [Int.toNat_of_nonneg hr, Int.toNat_of_nonneg hc,
            Int.toNat_of_nonneg hr', Int.toNat_of_nonneg hd]
          linarith [hid]
        exact_mod_cast h2
      simp only [bjorkGF, if_pos h1]
      rw [ih r (jsMod d r) _ p (by omega) (by omega) hr',
        List.length_append, length_flatten_replicate]
      calc r.toNat * ((jsFloorDiv d r).toNat * p.length + q.length)
            + (jsMod d r).toNat * p.length
          = (r.toNat * (jsFloorDiv d r).toNat + (jsMod d r).toNat) * p.length
            + r.toNat * q.length := by ring
        _ = d.toNat * p.length + r.toNat * q.length := by rw [hnat]
    · simp only [bjorkGF, if_neg h1]
      have : r = 0 ∨ r = 1 := by omega
      rcases this with rfl | rfl
      · simp [length_flatten_replicate]
      · simp [length_flatten_replicate, List.length_append]

theorem euclid_eq_rotate_pattern (steps beats rot : Int) :
    euclid steps beats rot =
      rotate (bjorkGF (beats.natAbs + 1) (steps - beats) beats [0] [1])
        (rot - jsIndexOf
          (bjorkGF (beats.natAbs + 1) (steps - beats) beats [0] [1]) 1) := by
  have hG := buildG_ladderF (beats.natAbs + 1) (steps - beats) beats [0] [1]
    (by omega)
  rcases hE : euclidLadderF (beats.natAbs + 1) (steps - beats) beats
    with ⟨cs, rs⟩
  rw [hE] at hG
  simp only [euclid, euclidLadder, hE, build_eq_buildG]
  rw [hG]

/-! ## Lemmas about the cellular automaton -/

theorem natDigitsF_two_bits : ∀ (f n : Nat) (acc : List Char),
    (∀ c ∈ acc, c = '0' ∨ c = '1') →
    ∀ c ∈ natDigitsF f 2 n acc, c = '0' ∨ c = '1' := by
  intro f
  induction f with
  | zero => intro n acc hacc c hc; exact hacc c hc
  | succ f ih =>
    intro n acc hacc c hc
    have hd : digitChar (n % 2) = '0' ∨ digitChar (n % 2) = '1' := by
      have h2 : n % 2 = 0 ∨ n % 2 = 1 := by omega
      rcases h2 with h | h <;> simp [digitChar, h]
    simp only [natDigitsF] at hc
    by_cases hn : n < 2
    · rw [if_pos hn] at hc
      rcases List.mem_cons.mp hc with rfl | hmem
      · exact hd
      · exact hacc c hmem
    · rw [if_neg hn] at hc
      refine ih (n / 2) (digitChar (n % 2) :: acc) ?_ c hc
      intro c' hc'
      rcases List.mem_cons.mp hc' with rfl | hm
      · exact hd
      · exact hacc c' hm

theorem natToDigits_two_bits (n : Nat) :
    ∀ c ∈ natToDigits 2 n, c = '0' ∨ c = '1' :=
  natDigitsF_two_bits (n + 1) n [] (by simp)

theorem padStart_bits (s : List Char) (len : Nat)
    (hs : ∀ c ∈ s, c = '0' ∨ c = '1') :
    ∀ c ∈ padStart s len '0', c = '0' ∨ c = '1' := by
  intro c hc
  rcases List.mem_append.mp hc with h | h
  · exact Or.inl (List.eq_of_mem_replicate h)
  · exact hs c h

theorem padStart_length (s : List Char) (len : Nat) (c : Char) :
    len ≤ (padStart s len c).length := by
  simp only [padStart, List.length_append, List.length_replicate]
  omega

theorem binaryToTable_keys (r : List Char) :
    (binaryToTable r).map Prod.fst =
      ["111", "110", "101", "100", "011", "010", "001", "000"] := rfl

theorem binaryToTable_length (r : List Char) :
    (binaryToTable r).length = 8 := rfl

theorem binaryToTable_vals (r : List Char) (h8 : 8 ≤ r.length)
    (hbits : ∀ c ∈ r, c = '0' ∨ c = '1') :
    ∀ p ∈ binaryToTable r, p.2 = 0 ∨ p.2 = 1 := by
  intro p hp
  simp only [binaryToTable, List.mem_map, List.mem_range] at hp
  obtain ⟨i, hi, rfl⟩ := hp
  cases hg : r.get? i with
  | none =>
    have := List.get?_eq_none.mp hg
    omega
  | some c =>
    have hc : c ∈ r := List.get?_mem hg
    rcases hbits c hc with rfl | rfl
    · left
      simp [hg, charToNum]
    · right
      simp [hg, charToNum]

theorem jsJoinInts_bits (l : List Int) (hl : ∀ x ∈ l, x = 0 ∨ x = 1) :
    ∀ c ∈ jsJoinInts l, c = '0' ∨ c = '1' := by
  intro c hc
  simp only [jsJoinInts, List.mem_flatten, List.mem_map] at hc
  obtain ⟨s, ⟨x, hx, rfl⟩, hcs⟩ := hc
  rcases hl x hx with rfl | rfl
  · rw [show jsIntToString 10 0 = ['0'] from rfl] at hcs
    exact Or.inl (List.mem_singleton.mp hcs)
  · rw [show jsIntToString 10 1 = ['1'] from rfl] at hcs
    exact Or.inr (List.mem_singleton.mp hcs)

theorem rule_preserves_state (A : Automaton) (a : JsArg) :
    (A.rule a).1.state = A.state ∧ (A.rule a).1.len = A.len := by
  cases a with
  | num n =>
    cases h : jsNumberCoerce (JsArg.num n) with
    | none => simp [Automaton.rule, h]
    | some m => simp [Automaton.rule, h]
  | arr l => exact ⟨rfl, rfl⟩
  | obj o => exact ⟨rfl, rfl⟩
  | str s =>
    cases h : jsNumberCoerce (JsArg.str s) with
    | none => simp [Automaton.rule, h]
    | some m => simp [Automaton.rule, h]
  | undef => exact ⟨rfl, rfl⟩

theorem feed_invalid (A : Automaton) (a : JsArg)
    (ha : ∀ xs : List Int, a = JsArg.arr xs → xs.length < 3) :
    (A.feed a).1 = A := by
  cases a with
  | arr l => simp [Automaton.feed, ha l rfl]
  | num n => rfl
  | obj o => rfl
  | str s => rfl
  | undef => rfl

theorem feed_preserves_inv (A : Automaton) (a : JsArg)
    (h : automatonInv A) : automatonInv (A.feed a).1 := by
  cases a with
  | arr l =>
    by_cases hl : l.length < 3
    · simpa [Automaton.feed, hl] using h
    · have hfeed : (A.feed (JsArg.arr l)).1
          = { A with state := l, len := (l.length : Int) } := by
        simp [Automaton.feed, hl]
      rw [hfeed]
      refine ⟨rfl, ?_⟩
      show (3 : Int) ≤ (l.length : Int)
      omega
  | num n => exact h
  | obj o => exact h
  | str s => exact h
  | undef => exact h

theorem nextState_length (A : Automaton) :
    (nextState A).length = A.len.toNat := by
  unfold nextState
  rw [List.length_map, List.length_range]

theorem next_preserves_inv (A : Automaton) (h : automatonInv A) :
    automatonInv (A.next).1 := by
  obtain ⟨h1, h2⟩ := h
  refine ⟨?_, h2⟩
  show ((nextState A).length : Int) = A.len
  rw [nextState_length]
  omega

theorem applyOp_preserves_inv (A : Automaton) (op : AOp)
    (h : automatonInv A) : automatonInv (applyOp A op) := by
  cases op with
  | opRule a =>
    obtain ⟨hs, hl⟩ := rule_preserves_state A a
    show automatonInv (A.rule a).1
    unfold automatonInv
    rw [hs, hl]
    exact h
  | opFeed a => exact feed_preserves_inv A a h
  | opNext => exact next_preserves_inv A h

theorem mkAutomaton_inv (l r : Int) : automatonInv (mkAutomaton l r) := by
  unfold automatonInv mkAutomaton
  simp only [List.length_replicate]
  constructor
  · omega
  · omega

theorem runOps_inv (l r : Int) (ops : List AOp) :
    automatonInv (runOps l r ops) := by
  suffices H : ∀ (ops : List AOp) (A : Automaton),
      automatonInv A → automatonInv (ops.foldl applyOp A) from
    H ops _ (mkAutomaton_inv l r)
  intro ops
  induction ops with
  | nil => intro A h; exact h
  | cons op ops ih => intro A h; exact ih _ (applyOp_preserves_inv A op h)

/-! ## Claim theorems -/

/-- Claim C1, counterexample.  The claim states that the output length is
`max(requested, 1)` and that the first two elements are `[seed2, seed1]`.
Both fail: `numBonacci(2, 0, 1, 1)` has length 1, not `max(2,1) = 2`, and
`numBonacci(5, 2, 7, 1)` starts `[2, 7] = [seed1, seed2]`, not `[7, 2]`. -/
theorem numBonacci_claim_counterexample :
    (numBonacci 2 0 1 1).length ≠ 2 ∧ (numBonacci 5 2 7 1).take 2 ≠ [7, 2] := by
  decide

/-- Claim C1 (amended): `numBonacci(len, s1, s2, t)` returns a sequence
whose length is `len` when `len ≥ 4` and `1` otherwise; whose first two
elements (when present) are `[seed1, seed2]`; and in which every
subsequent element equals `multiplier` times the previous element plus
the element before that. -/
theorem numBonacci_recurrence_spec (len s1 s2 t : Int) :
    ((numBonacci len s1 s2 t).length = if 4 ≤ len then len.toNat else 1)
    ∧ ((numBonacci len s1 s2 t).take 2 = if 4 ≤ len then [s1, s2] else [s1])
    ∧ (∀ i : Nat, i + 2 < (numBonacci len s1 s2 t).length →
        (numBonacci len s1 s2 t).getD (i + 2) 0 =
          t * (numBonacci len s1 s2 t).getD (i + 1) 0
            + (numBonacci len s1 s2 t).getD i 0) := by
  by_cases h : 4 ≤ len
  · have h1 : ¬ (max 1 (len - 2) < 2) := by omega
    refine ⟨?_, ?_, ?_⟩
    · rw [if_pos h]
      exact numBonacci_length_of_ge _ _ _ _ h
    · rw [if_pos h]
      simp [numBonacci, h1]
    · intro i hi
      simp only [numBonacci, h1, if_false, List.cons_append, List.nil_append] at hi ⊢
      exact nbonLoop_recurrence t _ s2 s1 i hi
  · rw [numBonacci_length_of_lt _ _ _ _ h]
    refine ⟨by simp [h], by simp [h], ?_⟩
    intro i hi
    simp at hi

/-- Witness for C1: the amended statement evaluated at
`numBonacci(6, 2, 7, 3)`. -/
theorem numBonacci_recurrence_spec_witness :
    (numBonacci 6 2 7 3).length = 6
    ∧ (numBonacci 6 2 7 3).take 2 = [2, 7]
    ∧ (numBonacci 6 2 7 3).getD 2 0 =
        3 * (numBonacci 6 2 7 3).getD 1 0 + (numBonacci 6 2 7 3).getD 0 0 := by
  have h := numBonacci_recurrence_spec 6 2 7 3
  exact ⟨by simpa using h.1, by simpa using h.2.1, h.2.2 0 (by decide)⟩

/-- Claim C2: for every `steps ≥ 1` and `0 ≤ beats ≤ steps`,
`euclid(steps, beats, 0)` returns a sequence of length `steps` containing
exactly `beats` ones and `steps - beats` zeros. -/
theorem euclid_beats_count (s b : Int) (hs : 1 ≤ s) (hb0 : 0 ≤ b)
    (hbs : b ≤ s) :
    (euclid s b 0).length = s.toNat
    ∧ (euclid s b 0).count 1 = b.toNat
    ∧ (euclid s b 0).count 0 = (s - b).toNat := by
  rw [euclid_eq_rotate_pattern]
  have hlen : (bjorkGF (b.natAbs + 1) (s - b) b [0] [1]).length = s.toNat := by
    rw [bjorkGF_length _ _ _ _ _ (by omega) (by omega) hb0]
    simp only [List.length_cons, List.length_nil]
    omega
  have hc1 : (bjorkGF (b.natAbs + 1) (s - b) b [0] [1]).count 1 = b.toNat := by
    rw [bjorkGF_count _ _ _ _ _ _ (by omega) (by omega) hb0]
    simp
  have hc0 : (bjorkGF (b.natAbs + 1) (s - b) b [0] [1]).count 0
      = (s - b).toNat := by
    rw [bjorkGF_count _ _ _ _ _ _ (by omega) (by omega) hb0]
    simp
  exact ⟨by rw [rotate_length, hlen], by rw [rotate_count, hc1],
    by rw [rotate_count, hc0]⟩

/-- Witness for C2: the statement evaluated at `euclid(8, 3, 0)`. -/
theorem euclid_beats_count_witness :
    (euclid 8 3 0).length = 8
    ∧ (euclid 8 3 0).count 1 = 3
    ∧ (euclid 8 3 0).count 0 = 5 := by
  have h := euclid_beats_count 8 3 (by decide) (by decide) (by decide)
  simpa using h

/-- Claim C7: for every `steps ≥ 1`, `0 ≤ beats ≤ steps` and every integer
rotation, the multiset of values of `euclid(steps, beats, rotation)`
equals the multiset of values of `euclid(steps, beats, 0)`: rotation is a
cyclic permutation of the unrotated pattern. -/
theorem euclid_rotation_multiset (s b r : Int) (_hs : 1 ≤ s) (_hb0 : 0 ≤ b)
    (_hbs : b ≤ s) :
    ((euclid s b r : List Int) : Multiset Int)
      = ((euclid s b 0 : List Int) : Multiset Int) := by
  have h1 : (euclid s b r).Perm
      (bjorkGF (b.natAbs + 1) (s - b) b [0] [1]) := by
    rw [euclid_eq_rotate_pattern]
    exact rotate_perm _ _
  have h2 : (euclid s b 0).Perm
      (bjorkGF (b.natAbs + 1) (s - b) b [0] [1]) := by
    rw [euclid_eq_rotate_pattern]
    exact rotate_perm _ _
  rw [Multiset.coe_eq_coe]
  exact h1.trans h2.symm

/-- Witness for C7: the statement evaluated at `euclid(8, 3, 5)`. -/
theorem euclid_rotation_multiset_witness :
    ((euclid 8 3 5 : List Int) : Multiset Int)
      = ((euclid 8 3 0 : List Int) : Multiset Int) :=
  euclid_rotation_multiset 8 3 5 (by decide) (by decide) (by decide)

/-- Claim C3, counterexample.  The claim states the Pisano computation
returns `[0, 1, 1]` (length 3) for modulus 2; because of the `l > 3`
guard the code skips the true restart at position 3 and returns the
6-element prefix `[0, 1, 1, 0, 1, 1]` instead. -/
theorem pisanoPeriod_two_counterexample :
    pisanoPeriod 2 ≠ [0, 1, 1] ∧ (pisanoPeriod 2).length ≠ 3 := by
  decide

/-- Claim C3 (amended): for modulus 2 the computation returns
`[0, 1, 1, 0, 1, 1]` (twice the documented OEIS period 3, because the
`l > 3` guard skips the restart at position 3); for modulus 3 it returns
`[0, 1, 1, 2, 0, 2, 2, 1]` (not `[0, 1, 1, 2]`); the returned length
equals the documented OEIS Pisano period for moduli 3, 4, 5, 6
(8, 6, 20, 24) but for modulus 2 it is 6, twice the OEIS value 3. -/
theorem pisanoPeriod_small_moduli :
    pisanoPeriod 2 = [0, 1, 1, 0, 1, 1]
    ∧ pisanoPeriod 3 = [0, 1, 1, 2, 0, 2, 2, 1]
    ∧ (pisanoPeriod 2).length = 6
    ∧ (pisanoPeriod 3).length = 8
    ∧ (pisanoPeriod 4).length = 6
    ∧ (pisanoPeriod 5).length = 20
    ∧ (pisanoPeriod 6).length = 24 := by
  decide

/-- Claim C4, counterexample.  The claim states that for modulus ≥ 2 and
length ≥ 1 `pisano(modulus, length)` returns exactly `length` terms; at
`pisano(12, 2)` the underlying `numBonacci` length clamp yields the
single term `[0]`. -/
theorem pisano_length_counterexample :
    pisano 12 2 = [0] ∧ (pisano 12 2).length ≠ 2 := by
  decide

/-- Claim C4 (amended): for modulus ≥ 2, `pisano(modulus, length)`
returns the first `length` Fibonacci numbers reduced modulo `modulus`
(skipping the period search) when `length ≥ 4`, and also when
`length = 1` (the single term `[0]`); for `length ∈ {2, 3}` it returns
the single term `[0]` rather than `length` terms; for modulus < 2 it
returns the degenerate sequence `[0]`. -/
theorem pisano_fixed_length_spec (m len : Int) :
    (2 ≤ m → 4 ≤ len →
      pisano m len = (List.range len.toNat).map (fun i => jsMod (Nat.fib i : Int) m))
    ∧ (2 ≤ m → len = 1 → pisano m len = [0])
    ∧ (2 ≤ m → (len = 2 ∨ len = 3) → pisano m len = [0])
    ∧ (m < 2 → pisano m len = [0]) := by
  refine ⟨?_, ?_, ?_, ?_⟩
  · intro hm hlen
    have h2 : ¬ (m < 2) := by omega
    have h1 : ¬ (len < 1) := by omega
    simp only [pisano, h2, if_false, h1, numBonacci_fib len hlen, List.map_map]
    rfl
  · intro hm hlen
    subst hlen
    have h2 : ¬ (m < 2) := by omega
    have hnb : numBonacci 1 0 1 1 = [0] := rfl
    simp [pisano, h2, hnb, jsMod]
  · intro hm hlen
    have h2 : ¬ (m < 2) := by omega
    rcases hlen with rfl | rfl
    · have hnb : numBonacci 2 0 1 1 = [0] := rfl
      simp [pisano, h2, hnb, jsMod]
    · have hnb : numBonacci 3 0 1 1 = [0] := rfl
      simp [pisano, h2, hnb, jsMod]
  · intro hm
    simp [pisano, hm]

/-- Witness for C4: the amended statement evaluated at concrete inputs. -/
theorem pisano_fixed_length_spec_witness :
    pisano 12 6 = (List.range (6 : Int).toNat).map (fun i => jsMod (Nat.fib i : Int) 12)
    ∧ pisano 12 2 = [0]
    ∧ pisano 1 6 = [0] :=
  ⟨(pisano_fixed_length_spec 12 6).1 (by decide) (by decide),
   (pisano_fixed_length_spec 12 2).2.2.1 (by decide) (Or.inl rfl),
   (pisano_fixed_length_spec 1 6).2.2.2 (by decide)⟩

/-- Claim C6: both Euclidean algorithms return `[1,0,1,0,1,0,1,0]` on the
canonical reference input `(8, 4, 0)`. -/
theorem euclid_fastEuclid_canonical :
    euclid 8 4 0 = [1, 0, 1, 0, 1, 0, 1, 0]
    ∧ fastEuclid 8 4 0 = [1, 0, 1, 0, 1, 0, 1, 0] := by
  decide

/-- Claim C9: `fibonacci(100, 0, true)` returns the first 100 Fibonacci
numbers as exact decimal strings; its last element is the exact decimal
digit string of the 100th Fibonacci number (`Nat.fib 99`, as the list
starts at `F(0) = 0`), which exceeds the native safe-integer range
`2^53 - 1`. -/
theorem fibonacci_hundred_exact :
    (fibonacciStrings 100 0).length = 100
    ∧ (fibonacciStrings 100 0).getLast? =
        some (String.mk (natToDigits 10 (Nat.fib 99)))
    ∧ String.mk (natToDigits 10 (Nat.fib 99)) = "218922995834555169026"
    ∧ fibonacciStrings 100 0 =
        (List.range 100).map (fun i => String.mk (natToDigits 10 (Nat.fib i)))
    ∧ 2 ^ 53 - 1 < Nat.fib 99 := by
  have hmap : fibonacciStrings 100 0 =
      (List.range 100).map (fun i => String.mk (natToDigits 10 (Nat.fib i))) := by
    have h100 : numBonacci (100 + 0) 0 1 1 =
        (List.range (100 : Int).toNat).map (fun i => (Nat.fib i : Int)) :=
      numBonacci_fib _ (by decide)
    simp only [fibonacciStrings, h100, List.map_map]
    rw [if_neg (by decide)]
    refine List.map_congr_left (fun i _ => ?_)
    show String.mk (jsIntToString 10 ((Nat.fib i : Int))) =
      String.mk (natToDigits 10 (Nat.fib i))
    have : ¬ ((Nat.fib i : Int) < 0) := by
      simp only [not_lt]
      exact Int.natCast_nonneg _
    simp [jsIntToString, this]
  refine ⟨?_, ?_, by decide, hmap, by decide⟩
  · rw [hmap]
    simp
  · rw [hmap, List.getLast?_map]
    rw [show (List.range 100).getLast? = some 99 from by decide]
    rfl

/-- Claim C5, counterexample.  The claim states that after any accepted
`rule()` assignment (number, array, or object mapping) the table has
exactly 8 entries, one per 3-bit neighborhood string; but the object
branch copies the argument into the table directly, so
`rule({"000": 0})` leaves a 1-entry table. -/
theorem automaton_rule_obj_counterexample :
    ((mkAutomaton 8 110).rule (JsArg.obj [("000", 0)])).1.table = [("000", 0)]
    ∧ (((mkAutomaton 8 110).rule (JsArg.obj [("000", 0)])).1.table).length ≠ 8 := by
  decide

/-- Claim C5 (amended): after a `rule()` assignment with a nonnegative
integer number argument or with an array argument whose elements are all
bits, the table has exactly 8 entries, keyed in order by the 3-bit
binary strings `"111"` down to `"000"`, each mapped to a single bit.
An object argument instead replaces the table with a copy of the
object, which has 8 such entries only when the object itself does. -/
theorem automaton_rule_table_complete (A : Automaton) (a : JsArg)
    (h : (∃ n : Int, a = JsArg.num n ∧ 0 ≤ n)
      ∨ (∃ l : List Int, a = JsArg.arr l ∧ ∀ x ∈ l, x = 0 ∨ x = 1)) :
    ((A.rule a).1.table).map Prod.fst =
      ["111", "110", "101", "100", "011", "010", "001", "000"]
    ∧ ((A.rule a).1.table).length = 8
    ∧ ∀ p ∈ (A.rule a).1.table, p.2 = 0 ∨ p.2 = 1 := by
  rcases h with ⟨n, rfl, hn⟩ | ⟨l, rfl, hl⟩
  · have htab : (A.rule (JsArg.num n)).1.table
        = binaryToTable (ruleToBinary n) := rfl
    rw [htab]
    refine ⟨binaryToTable_keys _, binaryToTable_length _,
      binaryToTable_vals _ (padStart_length _ 8 '0') ?_⟩
    apply padStart_bits
    intro c hc
    rw [show jsIntToString 2 n = natToDigits 2 n.toNat from
      if_neg (by omega)] at hc
    exact natToDigits_two_bits _ c hc
  · have htab : (A.rule (JsArg.arr l)).1.table
        = binaryToTable (padStart (jsJoinInts (l.take 8)) 8 '0') := rfl
    rw [htab]
    refine ⟨binaryToTable_keys _, binaryToTable_length _,
      binaryToTable_vals _ (padStart_length _ 8 '0') ?_⟩
    apply padStart_bits
    exact jsJoinInts_bits _ (fun x hx => hl x (List.mem_of_mem_take hx))

/-- Witness for C5: the amended statement at rule number 110 on the
default automaton. -/
theorem automaton_rule_table_complete_witness :
    (((mkAutomaton 8 110).rule (JsArg.num 110)).1.table).map Prod.fst
        = ["111", "110", "101", "100", "011", "010", "001", "000"]
    ∧ (((mkAutomaton 8 110).rule (JsArg.num 110)).1.table).length = 8
    ∧ ∀ p ∈ ((mkAutomaton 8 110).rule (JsArg.num 110)).1.table,
        p.2 = 0 ∨ p.2 = 1 :=
  automaton_rule_table_complete (mkAutomaton 8 110) (JsArg.num 110)
    (Or.inl ⟨110, rfl, by decide⟩)

/-- Claim C8: calling `rule()` with an argument that is not a number, not
an array, not an object mapping, and not numeric-coercible
(`Number(a)` is `NaN`) emits the `console.error` diagnostic and leaves
the automaton — in particular its rule table — completely unchanged. -/
theorem automaton_rule_invalid (A : Automaton) (a : JsArg)
    (hnum : ∀ n : Int, a ≠ JsArg.num n)
    (harr : ∀ l : List Int, a ≠ JsArg.arr l)
    (hobj : ∀ o : List (String × Int), a ≠ JsArg.obj o)
    (hnan : jsNumberCoerce a = none) :
    A.rule a = (A, [Diag.error]) := by
  cases a with
  | num n => exact absurd rfl (hnum n)
  | arr l => exact absurd rfl (harr l)
  | obj o => exact absurd rfl (hobj o)
  | str s => simp only [Automaton.rule, hnan]
  | undef => rfl

/-- Witness for C8: `rule("abc")` on the default automaton. -/
theorem automaton_rule_invalid_witness :
    jsNumberCoerce (JsArg.str "abc") = none
    ∧ (mkAutomaton 8 110).rule (JsArg.str "abc")
        = (mkAutomaton 8 110, [Diag.error]) :=
  ⟨by decide,
   automaton_rule_invalid (mkAutomaton 8 110) (JsArg.str "abc")
     (fun _ h => nomatch h) (fun _ h => nomatch h) (fun _ h => nomatch h)
     (by decide)⟩

/-- Claim C10: after construction and any sequence of `rule()`, `feed()`
and `next()` calls, the stored state has length equal to the stored
length field, which is at least 3; `feed()` with a non-array or with an
array of length less than 3 leaves the automaton (state and length)
completely unchanged; and `next()` produces a new state of the same
length as the old one. -/
theorem automaton_state_invariant (l r : Int) (ops : List AOp) (a : JsArg)
    (ha : ∀ xs : List Int, a = JsArg.arr xs → xs.length < 3) :
    ((runOps l r ops).state.length : Int) = (runOps l r ops).len
    ∧ 3 ≤ (runOps l r ops).len
    ∧ ((runOps l r ops).feed a).1 = runOps l r ops
    ∧ (((runOps l r ops).next).1.state).length
        = (runOps l r ops).state.length := by
  have hinv := runOps_inv l r ops
  refine ⟨hinv.1, hinv.2, feed_invalid _ a ha, ?_⟩
  show (nextState (runOps l r ops)).length = (runOps l r ops).state.length
  rw [nextState_length]
  have h1 := hinv.1
  omega

/-- Witness for C10: a concrete run of construction, `next`, a valid
`feed`, and a numeric `rule`, probed with the invalid feed argument `5`. -/
theorem automaton_state_invariant_witness :
    ((runOps 0 110 [AOp.opNext, AOp.opFeed (JsArg.arr [1, 0, 1, 0]),
        AOp.opRule (JsArg.num 30)]).state.length : Int)
      = (runOps 0 110 [AOp.opNext, AOp.opFeed (JsArg.arr [1, 0, 1, 0]),
        AOp.opRule (JsArg.num 30)]).len
    ∧ 3 ≤ (runOps 0 110 [AOp.opNext, AOp.opFeed (JsArg.arr [1, 0, 1, 0]),
        AOp.opRule (JsArg.num 30)]).len
    ∧ ((runOps 0 110 [AOp.opNext, AOp.opFeed (JsArg.arr [1, 0, 1, 0]),
        AOp.opRule (JsArg.num 30)]).feed (JsArg.num 5)).1
      = runOps 0 110 [AOp.opNext, AOp.opFeed (JsArg.arr [1, 0, 1, 0]),
        AOp.opRule (JsArg.num 30)]
    ∧ (((runOps 0 110 [AOp.opNext, AOp.opFeed (JsArg.arr [1, 0, 1, 0]),
        AOp.opRule (JsArg.num 30)]).next).1.state).length
      = (runOps 0 110 [AOp.opNext, AOp.opFeed (JsArg.arr [1, 0, 1, 0]),
        AOp.opRule (JsArg.num 30)]).state.length :=
  automaton_state_invariant 0 110
    [AOp.opNext, AOp.opFeed (JsArg.arr [1, 0, 1, 0]),
     AOp.opRule (JsArg.num 30)]
    (JsArg.num 5) (fun _ h => nomatch h)

end TotalSerialism
